import Mathlib

/-!
# Verification of the ftArchPostProc time-series core

Shallow embedding of the time-indexed series container (`TsIdxData.py`) and of
the module-level alignment driver (`ftArchPostProc.py`).  Timestamps are
modelled as `Int` nanoseconds since the epoch (the native resolution of pandas
timestamps); values are modelled as `ℚ` (finite floats, no NaN — rows whose
value failed to parse are dropped before the stages modelled here).  Missing
cells (pandas NaN) are modelled as `Option ℚ` with `none` for NaN.

Integer division and remainder follow Python semantics (`//` floors, `%` is
non-negative for a positive modulus), which for a positive divisor coincide
with `Int.ediv` / `Int.emod`.
-/

/-- Nanoseconds in one millisecond. -/
def nsPerMs : Int := 1000000

/-- Nanoseconds in one second. -/
def nsPerSec : Int := 1000000000

/-- Nanoseconds in one day. -/
def nsPerDay : Int := 86400000000000

/-- `TsIdxData.py` line 343: `self._df[self._tsName].dt.round('L')`.
Rounds a nanosecond timestamp to the nearest whole millisecond; pandas
resolves ties to the even millisecond multiple (numpy `np.round`). -/
def roundMsNs (t : Int) : Int :=
  let q := t / nsPerMs
  let r := t % nsPerMs
  if 2 * r < nsPerMs then nsPerMs * q
  else if nsPerMs < 2 * r then nsPerMs * (q + 1)
  else if q % 2 = 0 then nsPerMs * q else nsPerMs * (q + 1)

/-- `pandas.Series.drop_duplicates(keep='last')` on the timestamp column:
keeps the last occurrence of every timestamp.  `TsIdxData.py` line 345 invokes
this on the column Series extracted from the frame (`self._df[self._tsName]`),
so its result never reaches the stored frame — see `tsIdxInitSamples`. -/
def seriesDropDuplicatesLast : List Int → List Int
  | [] => []
  | t :: ts => if t ∈ ts then seriesDropDuplicatesLast ts
               else t :: seriesDropDuplicatesLast ts

/-- Insert one row into a timestamp-sorted list of rows, after any row with an
equal timestamp (stable). -/
def insertByTs (x : Int × ℚ) : List (Int × ℚ) → List (Int × ℚ)
  | [] => [x]
  | y :: ys => if x.1 < y.1 then x :: y :: ys else y :: insertByTs x ys

/-- `TsIdxData.py` line 352: `self._df.sort_index(inplace=True)` — sort the
rows ascending by timestamp. -/
def sortByTs (rows : List (Int × ℚ)) : List (Int × ℚ) :=
  rows.foldl (fun acc x => insertByTs x acc) []

/-- `TsIdxData.py` lines 214-216 (and 235-237): when the parsed end query has
a time-of-day of exactly midnight, it is replaced with 23:59:59.999999 of the
same date (`replace(hour=23, minute=59, second=59, microsecond=999999)`), so
that the whole end day is captured. -/
def endOfDayAdjust (e : Int) : Int :=
  if e % nsPerDay = 0 then e + 86399999999000 else e

/-- `TsIdxData.py` line 366: `self._df.loc[self._startQuery : self._endQuery]`
on the sorted timestamp index — keep exactly the rows whose timestamp lies in
the inclusive window; a missing bound does not constrain. -/
def clipWindow (startQ endQ : Option Int) (rows : List (Int × ℚ)) :
    List (Int × ℚ) :=
  rows.filter (fun r =>
    (match startQ with | none => true | some s => decide (s ≤ r.1)) &&
    (match endQ with | none => true | some e => decide (r.1 ≤ e)))

/-- `TsIdxData.__init__` (lines 298-366), data-conditioning pipeline on an
already-parsed row list (the float conversion, value `dropna` and timestamp
parse with its row-level fallback precede this and are modelled by the rows
being a clean `(timestamp, value)` list):
1. round every timestamp to the nearest millisecond (line 343);
2. line 345 calls `drop_duplicates(subset=..., keep='last', inplace=True)` on
   the detached column Series `self._df[self._tsName]`; the result is never
   written back into `self._df` (and `subset` is not a parameter that
   `Series.drop_duplicates` accepts), so the stored rows are unaffected —
   the computed column is discarded here exactly as in the source;
3. sort by timestamp (line 352);
4. apply the value query if one was given; a malformed query is skipped
   entirely (lines 355-362), modelled by `valueFilter = none`;
5. clip to the inclusive start/end window (line 366). -/
def tsIdxInitSamples (rows : List (Int × ℚ)) (valueFilter : Option (ℚ → Bool))
    (startQ endQ : Option Int) : List (Int × ℚ) :=
  let rounded := rows.map (fun r => (roundMsNs r.1, r.2))
  let _discarded := seriesDropDuplicatesLast (rounded.map Prod.fst)
  let sorted := sortByTs rounded
  let filtered := match valueFilter with
    | none => sorted
    | some f => sorted.filter (fun r => f r.2)
  clipWindow startQ endQ filtered

/-- `TsIdxData.py` lines 372-407, frequency inference over the cleaned,
sorted index.  `pdInferred` is the outcome of `pd.infer_freq` (an external
pandas heuristic): `some k` when a dominant gap of `k` nanoseconds was
inferred, `none` when it raised or returned `None`.  When `none`, the manual
fallback uses the gap between index entries 2 and 3 when at least 4 rows
exist, the gap between entries 0 and 1 when at least 2 rows exist, and one
second otherwise; a zero gap is overridden to one second (lines 399-404). -/
def inferFrequency (pdInferred : Option Int) (idx : List Int) : Int :=
  match pdInferred with
  | some k => k
  | none =>
    let g :=
      if 4 ≤ idx.length then idx.getD 3 0 - idx.getD 2 0
      else if 2 ≤ idx.length then idx.getD 1 0 - idx.getD 0 0
      else nsPerSec
    if g = 0 then nsPerSec else g

/-- The last row of `rows` whose timestamp is at or before `g` (for a
timestamp-sorted row list).  This is the common kernel of the backward
`pd.merge_asof` (`ftArchPostProc.py` lines 3053-3055) and of the pad/ffill
reindexing used when upsampling (`TsIdxData.py` line 490). -/
def lastLe {α : Type} (rows : List (Int × α)) (g : Int) : Option (Int × α) :=
  (rows.filter (fun r => r.1 ≤ g)).getLast?

/-- Backward as-of lookup into a clean sample list: the value carried by the
latest sample at or before `g`, `none` when no sample is at or before `g`. -/
def asofLe (samples : List (Int × ℚ)) (g : Int) : Option ℚ :=
  (lastLe samples g).map Prod.snd

/-- Pad/ffill lookup into a frame column whose cells may be NaN: the cell of
the latest row at or before `g` (itself possibly NaN), `none` when no row is
at or before `g`. -/
def asofRow (rows : List (Int × Option ℚ)) (g : Int) : Option ℚ :=
  match lastLe rows g with
  | none => none
  | some r => r.2

/-!  ## The TsIdxData container and `resample` -/

/-- The mutable state of a `TsIdxData` object that `resample` reads and
writes: the instrument name (`self._name`), the value-column label
(`self._yName`), the indexed frame `self._df` as a list of labelled columns
over the timestamp index (cells are `none` for NaN), and the sampling period
`self._timeOffset` in nanoseconds. -/
structure TsIdxData where
  name : String
  yName : String
  df : List (String × List (Int × Option ℚ))
  timeOffset : Int
deriving DecidableEq

/-- The resample-period argument after the handling of `TsIdxData.resample`
lines 450-461: `none` (no period supplied) and `invalid` (a string `to_offset`
cannot parse) are both replaced by one second; `valid p` is a parsed
fixed-tick offset of `p` nanoseconds.  Non-fixed calendar offsets are outside
this model. -/
inductive ResampleArg where
  | none
  | invalid
  | valid (p : Int)

/-- Which statistic columns a downsample builds. -/
structure StatFlags where
  val : Bool
  min : Bool
  max : Bool
  mean : Bool
  std : Bool
deriving DecidableEq

/-- `TsIdxData.resample` lines 512-535: the stats string is lowered; `v`
selects Value, `i` Min, `x` Max, `m` or `a` Mean, `s` or `d` StdDev; when no
flag is recognised the Mean alone is selected. -/
def parseStats (stats : String) : StatFlags :=
  let s := stats.data.map Char.toLower
  let v := s.contains 'v'
  let i := s.contains 'i'
  let x := s.contains 'x'
  let m := s.contains 'm' || s.contains 'a'
  let d := s.contains 's' || s.contains 'd'
  if !v && !i && !x && !m && !d then ⟨false, false, false, true, false⟩
  else ⟨v, i, x, m, d⟩

/-- Midnight (00:00:00) of the day containing nanosecond timestamp `t`
(`Timestamp.normalize` in the pandas bin-edge computation). -/
def midnightNs (t : Int) : Int := nsPerDay * (t / nsPerDay)

/-- First bin edge of a `closed='right'` resample (pandas
`_adjust_dates_anchored` with `base=0`): `first` is pushed down to the
previous multiple of `p` anchored at midnight of its own day, strictly below
`first` when `first` is already on a boundary. -/
def binEdgeFirstRight (f m p : Int) : Int :=
  let fo := (f - m) % p
  if 0 < fo then f - fo else f - p

/-- Last bin edge of a `closed='right'` resample: `last` is pushed up to the
next multiple of `p` anchored at midnight of the first element's day, staying
put when already on a boundary. -/
def binEdgeLastRight (l m p : Int) : Int :=
  let lo := (l - m) % p
  if 0 < lo then l + (p - lo) else l

/-- The labels of a `closed='right', label='right'` resample over index span
`[f, l]` with period `p`: the right edges of the consecutive bins
`(e - p, e]`, i.e. every anchored multiple of `p` from just above the first
edge to the adjusted last edge. -/
def labelsRight (f l p : Int) : List Int :=
  let m := midnightNs f
  let fres := binEdgeFirstRight f m p
  let lres := binEdgeLastRight l m p
  (List.range ((lres - fres) / p).toNat).map
    (fun (i : Nat) => fres + p * ((i : Int) + 1))

/-- `GroupBy.last` over one bin: the last non-NaN cell, `none` for an empty
(or all-NaN) bin. -/
def aggLast (vals : List ℚ) : Option ℚ := vals.getLast?

/-- `GroupBy.min` over one bin's non-NaN cells. -/
def aggMin : List ℚ → Option ℚ
  | [] => none
  | v :: vs => some (vs.foldl min v)

/-- `GroupBy.max` over one bin's non-NaN cells. -/
def aggMax : List ℚ → Option ℚ
  | [] => none
  | v :: vs => some (vs.foldl max v)

/-- `GroupBy.mean` over one bin's non-NaN cells. -/
def aggMean (vals : List ℚ) : Option ℚ :=
  match vals with
  | [] => none
  | _ => some (vals.sum / vals.length)

/-- `GroupBy.std` (sample deviation, `ddof=1`) over one bin's non-NaN cells,
modelled by the sample variance — the source reports its square root, an
irrational quantity no claim examines; `none` for fewer than two cells. -/
def aggStdSq (vals : List ℚ) : Option ℚ :=
  match vals with
  | [] => none
  | [_] => none
  | _ =>
    let n : ℚ := vals.length
    let mu := vals.sum / n
    some ((vals.map (fun v => (v - mu) * (v - mu))).sum / (n - 1))

/-- The non-NaN values of `rows` falling in the bin `(e - p, e]` (pandas
nan-skipping aggregation over a right-closed group). -/
def binValues (rows : List (Int × Option ℚ)) (e p : Int) : List ℚ :=
  (rows.filter (fun r => e - p < r.1 && r.1 ≤ e)).filterMap Prod.snd

/-- One downsampled statistic column:
`self._df.iloc[:,0].resample(resampleTo, label='right', closed='right')`
followed by the given aggregation — each right-edge label carries the
aggregate of the values in its bin (`TsIdxData.py` lines 571-595). -/
def downsampleCol (agg : List ℚ → Option ℚ) (rows : List (Int × Option ℚ))
    (p : Int) : List (Int × Option ℚ) :=
  match rows.head?, rows.getLast? with
  | some f, some l => (labelsRight f.1 l.1 p).map
      (fun e => (e, agg (binValues rows e p)))
  | _, _ => []

/-- The first (position 0) column of the frame, `self._df.iloc[:,0]`. -/
def TsIdxData.firstCol (d : TsIdxData) : List (Int × Option ℚ) :=
  match d.df.head? with
  | none => []
  | some c => c.2

/-- The labelled statistic columns a downsample stores into `self._df`
(`TsIdxData.py` lines 537-595), in source order Value, Min, Max, Mean,
StdDev, each present exactly when its flag is selected. -/
def downsampleFrame (d : TsIdxData) (stats : String) (p : Int) :
    List (String × List (Int × Option ℚ)) :=
  let f := parseStats stats
  let src := d.firstCol
  (if f.val then [(d.yName, downsampleCol aggLast src p)] else [])
  ++ (if f.min then [("min_" ++ d.name, downsampleCol aggMin src p)] else [])
  ++ (if f.max then [("max_" ++ d.name, downsampleCol aggMax src p)] else [])
  ++ (if f.mean then [("mean_" ++ d.name, downsampleCol aggMean src p)] else [])
  ++ (if f.std then [("std_" ++ d.name, downsampleCol aggStdSq src p)] else [])

/-- The floor of `t` onto the grid of `p`-multiples anchored at `m`. -/
def floorAnchored (p t m : Int) : Int := t - (t - m) % p

/-- The result index of a `closed='left'` upsample over index span `[f, l]`
with period `p` (pandas bin edges with the rightmost edge dropped by
`_adjust_binner_for_upsample`): the anchored multiples of `p` from
`floorAnchored p f` to `floorAnchored p l`. -/
def upsampleGrid (f l p : Int) : List Int :=
  let m := midnightNs f
  let s := floorAnchored p f m
  let e := floorAnchored p l m
  (List.range (((e - s) / p).toNat + 1)).map (fun (i : Nat) => s + p * (i : Int))

/-- `self._df.iloc[:,0].resample(resampleTo).pad()` (`TsIdxData.py` line
490): reindex the first column onto the upsample grid, each grid point taking
the cell of the latest original row at or before it (carry-forward hold);
grid points before the first row get no value. -/
def upsampleRows (rows : List (Int × Option ℚ)) (p : Int) :
    List (Int × Option ℚ) :=
  match rows.head?, rows.getLast? with
  | some f, some l => (upsampleGrid f.1 l.1 p).map (fun g => (g, asofRow rows g))
  | _, _ => []

/-- `TsIdxData.resample` (`TsIdxData.py` lines 429-615).  A missing or
unparsable resample argument is replaced by one second (lines 450-461).  The
target is then compared with the current period: smaller upsamples with
forward fill, larger downsamples with the selected statistics, equal is a
no-op (lines 611-615).  The pandas calls inside the two `try` blocks raise on
a non-positive tick period; the bare `except` branches (lines 501-505 and
606-610) then leave the data and period unchanged. -/
def TsIdxData.resample (d : TsIdxData) (arg : ResampleArg) (stats : String) :
    TsIdxData :=
  let resampleTo : Int :=
    match arg with
    | .valid p => p
    | _ => nsPerSec
  if resampleTo < d.timeOffset then
    if resampleTo ≤ 0 then d
    else { d with df := [(d.yName, upsampleRows d.firstCol resampleTo)],
                  timeOffset := resampleTo }
  else if d.timeOffset < resampleTo then
    if resampleTo ≤ 0 then d
    else { d with df := downsampleFrame d stats resampleTo,
                  timeOffset := resampleTo }
  else d

/-- Outcome of a Python positional call: the body runs and returns a result,
or the call raises TypeError before the body runs because the number of
positional arguments supplied does not match the function's declared
parameters. -/
inductive PyCall (α : Type) where
  | ok (result : α)
  | typeError
deriving DecidableEq

/-- `TsIdxData.appendData` (`TsIdxData.py` lines 617-621): an unimplemented
stub declared `def appendData(srcDf):` — a single parameter and no `self`.
Its body only prints a warning and returns; holding no reference to any
object, executing it cannot change any field of any instance.
`appendData d src` is the state of the object `d` after the body runs. -/
def TsIdxData.appendData (d : TsIdxData)
    (_srcDf : List (String × List (Int × Option ℚ))) : TsIdxData := d

/-- The number of parameters the `appendData` stub declares: just `srcDf`
(the `self` parameter is missing from the `def`). -/
def appendDataParamCount : Nat := 1

/-- `TsIdxData.replaceData` (`TsIdxData.py` lines 623-627): the same kind of
self-less warning-only stub as `appendData`; its body cannot touch the
object. -/
def TsIdxData.replaceData (d : TsIdxData)
    (_srcDf : List (String × List (Int × Option ℚ))) : TsIdxData := d

/-- The number of parameters the `replaceData` stub declares: just `srcDf`
(no `self`). -/
def replaceDataParamCount : Nat := 1

/-- `ftArchPostProc.py` lines 801-823 run against the staged class
(`src/TsIdxData.py`; the driver's own import at line 182 names a
`bpsTsIdxData` module that is not part of the staged sources): when the
instrument name was already seen, the branch executes
`instData[idx].appendData(tid_inst.data, 0)` — a bound-method call that
supplies 3 positional arguments (the instance, the new frame, and `0`) to
the stub.  Python raises TypeError unless that count matches the stub's
declared parameter count; only on a match would the body — which mutates
nothing — run.  A not-yet-seen name is appended to the instrument list. -/
def addInstrument (insts : List TsIdxData) (newInst : TsIdxData) :
    PyCall (List TsIdxData) :=
  if insts.any (fun i => i.name = newInst.name) then
    if 3 = appendDataParamCount then
      PyCall.ok (insts.map (fun i =>
        if i.name = newInst.name then i.appendData newInst.df else i))
    else PyCall.typeError
  else PyCall.ok (insts ++ [newInst])

/-!  ## The module-level alignment driver (`ftArchPostProc.py`) -/

/-- `df_dest.fillna(0.0)` (`ftArchPostProc.py` line 3059): a missing cell
becomes the sentinel `0.0`. -/
def fillna0 : Option ℚ → ℚ
  | none => 0
  | some v => v

/-- One pass of the merge loop (`ftArchPostProc.py` lines 3053-3055):
`pd.merge_asof(df_dest, inst.data, left_index=True, right_index=True,
direction='backward')` keeps every destination row and appends, for each one,
the cell of the instrument's latest sample at or before that row's
timestamp. -/
def mergeAsofAppend (tbl : List (Int × List (Option ℚ)))
    (samples : List (Int × ℚ)) : List (Int × List (Option ℚ)) :=
  tbl.map (fun row => (row.1, row.2 ++ [asofLe samples row.1]))

/-- The merge loop over all instruments (`ftArchPostProc.py` lines
3043-3059): starting from the master date-range frame, backward-as-of merge
each instrument's samples in turn, then replace every NaN with `0.0`.  Each
instrument is modelled by its clean sample list (a multi-statistic frame
merges every column the same way). -/
def alignMerge (grid : List Int) (seriesList : List (List (Int × ℚ))) :
    List (Int × List ℚ) :=
  let merged := seriesList.foldl mergeAsofAppend (grid.map (fun g => (g, [])))
  merged.map (fun row => (row.1, row.2.map fillna0))

/-- `pd.date_range(startTime, endTime, freq=resampleArg)` (`ftArchPostProc.py`
lines 2992-2994): the timestamps `s, s + p, s + 2p, …` up to `e`; empty when
`s > e`. -/
def gridRange (s e p : Int) : List Int :=
  if s ≤ e then
    (List.range (((e - s) / p).toNat + 1)).map (fun (i : Nat) => s + p * (i : Int))
  else []

/-- The outcome of one alignment run: either the fatal no-data exit (the
`else` branches at `ftArchPostProc.py` lines 3077-3081, where nothing is
written) or a written table. -/
inductive RunResult where
  | noData
  | written (table : List (Int × List ℚ))
deriving DecidableEq

/-- The alignment driver (`ftArchPostProc.py` lines 2904-3081) over the
sorted instrument list.  `startTime` / `endTime` scan the instruments for the
earliest start and latest end, skipping empty ones (lines 2907-2924); when no
instrument has any row both stay NaT and the run takes the fatal no-data
branch.  Otherwise missing window arguments default to the data bounds, the
window is the intersection of data bounds and arguments (lines 2945-2957),
the start is floored onto the resample period (line 2971, epoch-anchored
`Timestamp.floor`), the master grid is built and every instrument is merged
onto it.  The per-instrument re-resampling at line 3045 rewrites each series'
frame in place and is modelled separately by `TsIdxData.resample`; the run
outcome examined here does not depend on it. -/
def runAlign (seriesList : List (List (Int × ℚ)))
    (startArg endArg : Option Int) (p : Int) : RunResult :=
  let starts := seriesList.filterMap (fun s => (s.head?).map Prod.fst)
  let ends := seriesList.filterMap (fun s => (s.getLast?).map Prod.fst)
  match starts.min?, ends.max? with
  | some st, some en =>
    let sA := startArg.getD st
    let eA := endArg.getD en
    let st2 := max st sA
    let en2 := min en eA
    let st3 := st2 - st2 % p
    RunResult.written (alignMerge (gridRange st3 en2 p) seriesList)
  | _, _ => RunResult.noData

/-!  ## Concrete fixtures used by example parts and witnesses -/

/-- A one-second-period series carrying the values 3, 7, 2 one second apart
(the downsample-aggregate test data of the spec). -/
def exDown : TsIdxData :=
  ⟨"ex", "ex",
   [("ex", [(1000000000, some 3), (2000000000, some 7), (3000000000, some 2)])],
   1000000000⟩

/-- A two-second-period series with samples `(t0, 10)` and `(t0 + 2s, 20)` at
`t0 = 0` (the upsample carry-forward test data of the spec). -/
def exUp : TsIdxData :=
  ⟨"ex", "ex", [("ex", [(0, some 10), (2000000000, some 20)])], 2000000000⟩


/-!  ## Helper lemmas -/

theorem mem_insertByTs (x y : Int × ℚ) (l : List (Int × ℚ)) :
    y ∈ insertByTs x l ↔ y = x ∨ y ∈ l := by
  induction l with
  | nil => simp [insertByTs]
  | cons z zs ih =>
    by_cases h : x.1 < z.1
    all_goals simp only [insertByTs, h, if_true, if_false, List.mem_cons, ih,
      ite_true, ite_false]
    all_goals tauto

theorem mem_sortByTs_aux (y : Int × ℚ) (l acc : List (Int × ℚ)) :
    y ∈ l.foldl (fun a x => insertByTs x a) acc ↔ y ∈ acc ∨ y ∈ l := by
  induction l generalizing acc with
  | nil => simp
  | cons z zs ih =>
    simp only [List.foldl_cons, ih, mem_insertByTs, List.mem_cons]
    tauto

theorem mem_sortByTs (y : Int × ℚ) (l : List (Int × ℚ)) :
    y ∈ sortByTs l ↔ y ∈ l := by
  unfold sortByTs
  simp [mem_sortByTs_aux]

theorem getLast?_mem_self {α : Type} {l : List α} {a : α}
    (h : l.getLast? = some a) : a ∈ l :=
  List.mem_of_mem_getLast? (Option.mem_def.mpr h)

theorem pairwise_getLast {α : Type} {R : α → α → Prop} :
    ∀ (l : List α), l.Pairwise R → ∀ b, l.getLast? = some b →
      ∀ x ∈ l, x = b ∨ R x b := by
  intro l
  induction l with
  | nil => intro _ b hb; cases hb
  | cons a rest ih =>
    intro hp b hb x hx
    rcases List.pairwise_cons.mp hp with ⟨ha, hrest⟩
    cases rest with
    | nil =>
      simp at hb hx
      subst hb; subst hx; left; rfl
    | cons c cs =>
      have hb' : (c :: cs).getLast? = some b := by
        simpa [List.getLast?_cons_cons] using hb
      rcases List.mem_cons.mp hx with hxa | hxr
      · subst hxa
        right
        exact ha b (getLast?_mem_self hb')
      · exact ih hrest b hb' x hxr

theorem lastLe_eq_none {α : Type} (rows : List (Int × α)) (g : Int) :
    lastLe rows g = none ↔ ∀ r ∈ rows, g < r.1 := by
  unfold lastLe
  rw [List.getLast?_eq_none_iff, List.filter_eq_nil_iff]
  constructor
  · intro h r hr
    have := h r hr
    simpa using this
  · intro h r hr
    simpa using h r hr

theorem lastLe_isSome {α : Type} (rows : List (Int × α)) (g : Int)
    (h : ∃ r ∈ rows, r.1 ≤ g) : ∃ r, lastLe rows g = some r := by
  cases hcase : lastLe rows g with
  | some r => exact ⟨r, rfl⟩
  | none =>
    rcases h with ⟨r, hr, hle⟩
    exact absurd hle (not_le.mpr ((lastLe_eq_none rows g).mp hcase r hr))

theorem lastLe_spec {α : Type} (rows : List (Int × α)) (g : Int)
    (hs : rows.Pairwise (fun a b => a.1 ≤ b.1)) (r : Int × α)
    (hr : lastLe rows g = some r) :
    r ∈ rows ∧ r.1 ≤ g ∧ ∀ r' ∈ rows, r'.1 ≤ g → r'.1 ≤ r.1 := by
  have hmem : r ∈ rows.filter (fun q => q.1 ≤ g) := getLast?_mem_self hr
  have h1 : r ∈ rows := List.mem_of_mem_filter hmem
  have h2 : r.1 ≤ g := by simpa using List.of_mem_filter hmem
  refine ⟨h1, h2, ?_⟩
  intro r' hr' hle
  have hmem' : r' ∈ rows.filter (fun q => q.1 ≤ g) :=
    List.mem_filter.mpr ⟨hr', by simpa using hle⟩
  have hpf : (rows.filter (fun q => q.1 ≤ g)).Pairwise
      (fun a b => a.1 ≤ b.1) := hs.filter _
  rcases pairwise_getLast _ hpf r hr r' hmem' with heq | hlt
  · exact heq ▸ le_refl _
  · exact hlt

/-!  ## Claim theorems -/

/-- C1 (code bug): the spec demands that SeriesBuilder output be strictly
increasing by timestamp with duplicates removed keeping the last occurrence,
and the source's own comment at `TsIdxData.py` line 344 states that intent —
but the `drop_duplicates` call at line 345 is made on the detached timestamp
column Series (with the DataFrame-only `subset` argument) and its result is
discarded, so two raw rows that collide on the same millisecond after
rounding both survive into the stored data: the constructed samples for raw
timestamps 999.9ms and 1000.1ms keep both rows at the 1000ms stamp, and the
timestamp sequence is not strictly increasing. -/
theorem tsIdxInit_retains_duplicate_timestamps :
    tsIdxInitSamples [(999900000, 3), (1000100000, 7)] none none none
      = [(1000000000, 3), (1000000000, 7)]
    ∧ ¬ ((tsIdxInitSamples [(999900000, 3), (1000100000, 7)] none none
          none).map Prod.fst).Pairwise (· < ·) := by
  constructor
  · decide
  · decide

/-- C8: resampling to a target period equal to the series' current period is
a no-op — the equal-period `else` branch at `TsIdxData.py` lines 611-615 only
prints an informational message, so the returned object carries samples and
period identical to the input. -/
theorem resample_equal_period_noop (d : TsIdxData) (stats : String) :
    d.resample (.valid d.timeOffset) stats = d := by
  unfold TsIdxData.resample
  simp

/-- C7 (counterexample): an *unparsable* resample period does not leave the
series unchanged — `TsIdxData.resample` lines 455-461 replace it with one
second and resampling proceeds, so a two-second-period series gets upsampled
and its period becomes one second. -/
theorem resample_invalid_arg_changes_series :
    (exUp.resample ResampleArg.invalid "m").timeOffset ≠ exUp.timeOffset := by
  decide

/-- C7 (amended): when the parsed target period is invalid relative to the
data — zero or negative, so the pandas aggregation inside the `try` blocks
cannot be computed — the bare `except` branches (`TsIdxData.py` lines 501-505
and 606-610) leave the series completely unchanged at its prior samples and
prior period, with only a warning; the operation never aborts.  (A missing or
unparsable period, by contrast, is replaced by one second and resampling
proceeds.) -/
theorem resample_nonpositive_period_unchanged (d : TsIdxData) (stats : String)
    (p : Int) (hp : p ≤ 0) : d.resample (.valid p) stats = d := by
  unfold TsIdxData.resample
  by_cases h1 : p < d.timeOffset
  · simp [h1, hp]
  · by_cases h2 : d.timeOffset < p
    · simp [h1, h2, hp]
    · simp [h1, h2]

/-- Witness for C7's amended theorem at the concrete period 0. -/
theorem resample_nonpositive_period_unchanged_witness :
    (0 : Int) ≤ 0 ∧ exUp.resample (.valid 0) "m" = exUp :=
  ⟨by decide, resample_nonpositive_period_unchanged exUp "m" 0 (by decide)⟩

/-- C10 (counterexample): on the staged source a duplicate instrument name
does not lead to a completed warning-only call that discards the later rows —
the stub is declared without `self`, so the bound call
`instData[idx].appendData(tid_inst.data, 0)` supplies 3 positional arguments
to a 1-parameter function and raises TypeError; the ingest loop does not
return the unchanged instrument list. -/
theorem addInstrument_duplicate_raises :
    addInstrument [exUp] exUp = PyCall.typeError
    ∧ addInstrument [exUp] exUp ≠ PyCall.ok [exUp] := by
  constructor
  · decide
  · decide

/-- C10 (amended): the `appendData` and `replaceData` stub bodies mutate
nothing — declared without `self`, they cannot even name the object — but
for the same reason the duplicate-instrument branch of the ingest loop
(`ftArchPostProc.py` lines 805-813) raises TypeError instead of completing:
an input that repeats an instrument name aborts the run against the staged
class, so the later occurrence's rows are never merged (nor gracefully
discarded by a warning-only call). -/
theorem appendData_duplicate_aborts
    (d : TsIdxData) (src : List (String × List (Int × Option ℚ)))
    (insts : List TsIdxData) (newInst : TsIdxData)
    (hdup : insts.any (fun i => i.name = newInst.name) = true) :
    d.appendData src = d ∧ d.replaceData src = d
    ∧ addInstrument insts newInst = PyCall.typeError := by
  refine ⟨rfl, rfl, ?_⟩
  unfold addInstrument
  rw [if_pos hdup]
  rw [if_neg (by decide)]

/-- Witness for C10's amended theorem at a concrete duplicated instrument. -/
theorem appendData_duplicate_aborts_witness :
    ([exUp].any (fun i => i.name = exUp.name) = true)
    ∧ addInstrument [exUp] exUp = PyCall.typeError :=
  ⟨by decide,
   (appendData_duplicate_aborts exUp [] [exUp] exUp (by decide)).2.2⟩

theorem heads_nil_iff (seriesList : List (List (Int × ℚ))) :
    seriesList.filterMap (fun s => (s.head?).map Prod.fst) = []
      ↔ ∀ s ∈ seriesList, s = [] := by
  rw [List.filterMap_eq_nil_iff]
  constructor
  · intro h s hs
    have := h s hs
    rwa [Option.map_eq_none', List.head?_eq_none_iff] at this
  · intro h s hs
    rw [Option.map_eq_none', List.head?_eq_none_iff]
    exact h s hs

theorem lasts_nil_iff (seriesList : List (List (Int × ℚ))) :
    seriesList.filterMap (fun s => (s.getLast?).map Prod.fst) = []
      ↔ ∀ s ∈ seriesList, s = [] := by
  rw [List.filterMap_eq_nil_iff]
  constructor
  · intro h s hs
    have := h s hs
    rwa [Option.map_eq_none', List.getLast?_eq_none_iff] at this
  · intro h s hs
    rw [Option.map_eq_none', List.getLast?_eq_none_iff]
    exact h s hs

/-- C6 (counterexample): an empty merge window does *not* terminate the run
with the fatal no-data failure — with one instrument whose only sample sits
at 1s and a start argument of 3s, the window start exceeds the window end,
`pd.date_range` yields an empty master grid, and the run still writes a
(zero-row) table. -/
theorem runAlign_empty_window_writes_empty_table :
    runAlign [[(1000000000, 1)]] (some 3000000000) none 1000000000
        = RunResult.written []
    ∧ runAlign [[(1000000000, 1)]] (some 3000000000) none 1000000000
        ≠ RunResult.noData := by
  constructor
  · decide
  · decide

/-- C6 (amended): the run takes the fatal no-data exit — nothing aligned,
nothing written — exactly when no series contributes any sample (including
the no-instrument case); that is the only terminating failure of the
modelled core.  An empty merge window is not fatal: it produces a written
table with zero rows. -/
theorem runAlign_noData_iff (seriesList : List (List (Int × ℚ)))
    (startArg endArg : Option Int) (p : Int) :
    runAlign seriesList startArg endArg p = RunResult.noData
      ↔ ∀ s ∈ seriesList, s = [] := by
  unfold runAlign
  dsimp only
  rcases hmin : (seriesList.filterMap (fun s => (s.head?).map Prod.fst)).min?
    with _ | st
  · have hnil : seriesList.filterMap (fun s => (s.head?).map Prod.fst) = [] :=
      List.min?_eq_none_iff.mp hmin
    rcases hmax : (seriesList.filterMap
        (fun s => (s.getLast?).map Prod.fst)).max? with _ | en
    · rw [hmin, hmax]
      simp only [true_iff, reduceCtorEq]
      exact fun _ _ => (heads_nil_iff seriesList).mp hnil _ (by assumption)
    · rw [hmin, hmax]
      simp only [true_iff, reduceCtorEq]
      exact fun _ _ => (heads_nil_iff seriesList).mp hnil _ (by assumption)
  · rcases hmax : (seriesList.filterMap
        (fun s => (s.getLast?).map Prod.fst)).max? with _ | en
    · have hnil : seriesList.filterMap
          (fun s => (s.getLast?).map Prod.fst) = [] :=
        List.max?_eq_none_iff.mp hmax
      have hall := (lasts_nil_iff seriesList).mp hnil
      have hcontra : seriesList.filterMap
          (fun s => (s.head?).map Prod.fst) = [] :=
        (heads_nil_iff seriesList).mpr hall
      rw [hcontra] at hmin
      cases hmin
    · rw [hmin, hmax]
      constructor
      · intro h
        cases h
      · intro hall
        have hcontra : seriesList.filterMap
            (fun s => (s.head?).map Prod.fst) = [] :=
          (heads_nil_iff seriesList).mpr hall
        rw [hcontra] at hmin
        cases hmin


theorem getD_le_getD_of_pairwise (idx : List Int) (hs : idx.Pairwise (· ≤ ·))
    (i j : Nat) (hij : i < j) (hj : j < idx.length) :
    idx.getD i 0 ≤ idx.getD j 0 := by
  have hi : i < idx.length := lt_trans hij hj
  rw [List.getD_eq_getElem idx 0 hi, List.getD_eq_getElem idx 0 hj]
  rw [List.pairwise_iff_get] at hs
  exact hs ⟨i, hi⟩ ⟨j, hj⟩ hij

theorem inferFrequency_none_eq (idx : List Int) :
    inferFrequency none idx =
      if (if 4 ≤ idx.length then idx.getD 3 0 - idx.getD 2 0
          else if 2 ≤ idx.length then idx.getD 1 0 - idx.getD 0 0
          else nsPerSec) = 0 then nsPerSec
      else (if 4 ≤ idx.length then idx.getD 3 0 - idx.getD 2 0
            else if 2 ≤ idx.length then idx.getD 1 0 - idx.getD 0 0
            else nsPerSec) := rfl

/-- C5: frequency inference is a deterministic total function of the cleaned
timestamps yielding a strictly positive period.  When `pd.infer_freq` finds
no dominant gap (`pdInferred = none`): with at least 4 samples the gap
between index entries 2 and 3 is used, with 2 or 3 samples the gap between
entries 0 and 1, with 0 or 1 samples one second (with a warning); a zero
chosen gap is overridden to one second.  In particular
`[t, t+5s, t+10s, t+15s]` infers 5 seconds and a single timestamp infers one
second. -/
theorem inferFrequency_claim (idx : List Int) (r : Option Int)
    (hr : ∀ k, r = some k → 0 < k) (hs : idx.Pairwise (· ≤ ·)) :
    0 < inferFrequency r idx
    ∧ (4 ≤ idx.length →
        inferFrequency none idx =
          if idx.getD 3 0 - idx.getD 2 0 = 0 then nsPerSec
          else idx.getD 3 0 - idx.getD 2 0)
    ∧ (2 ≤ idx.length → idx.length < 4 →
        inferFrequency none idx =
          if idx.getD 1 0 - idx.getD 0 0 = 0 then nsPerSec
          else idx.getD 1 0 - idx.getD 0 0)
    ∧ (idx.length < 2 → inferFrequency none idx = nsPerSec)
    ∧ (∀ t : Int,
        inferFrequency none
            [t, t + 5 * nsPerSec, t + 10 * nsPerSec, t + 15 * nsPerSec]
          = 5 * nsPerSec
        ∧ inferFrequency none [t] = nsPerSec) := by
  have hpos : 0 < inferFrequency r idx := by
    cases r with
    | some k => exact hr k rfl
    | none =>
      rw [inferFrequency_none_eq]
      by_cases h4 : 4 ≤ idx.length
      · simp only [if_pos h4]
        by_cases hz : idx.getD 3 0 - idx.getD 2 0 = 0
        · rw [if_pos hz]; norm_num [nsPerSec]
        · rw [if_neg hz]
          have := getD_le_getD_of_pairwise idx hs 2 3 (by norm_num) (by omega)
          omega
      · simp only [if_neg h4]
        by_cases h2 : 2 ≤ idx.length
        · simp only [if_pos h2]
          by_cases hz : idx.getD 1 0 - idx.getD 0 0 = 0
          · rw [if_pos hz]; norm_num [nsPerSec]
          · rw [if_neg hz]
            have := getD_le_getD_of_pairwise idx hs 0 1 (by norm_num)
              (by omega)
            omega
        · simp only [if_neg h2]
          rw [if_neg (by norm_num [nsPerSec])]
          norm_num [nsPerSec]
  refine ⟨hpos, ?_, ?_, ?_, ?_⟩
  · intro h4
    rw [inferFrequency_none_eq]
    simp only [if_pos h4]
  · intro h2 h4
    rw [inferFrequency_none_eq]
    simp only [if_neg (show ¬ (4 ≤ idx.length) by omega), if_pos h2]
  · intro h2
    rw [inferFrequency_none_eq]
    simp only [if_neg (show ¬ (4 ≤ idx.length) by omega),
      if_neg (show ¬ (2 ≤ idx.length) by omega)]
    rw [if_neg (by norm_num [nsPerSec])]
  · intro t
    constructor
    · rw [inferFrequency_none_eq]
      have hlen : (4 : ℕ) ≤ [t, t + 5 * nsPerSec, t + 10 * nsPerSec,
          t + 15 * nsPerSec].length := by simp
      simp only [if_pos hlen]
      have hg : [t, t + 5 * nsPerSec, t + 10 * nsPerSec,
            t + 15 * nsPerSec].getD 3 0
          - [t, t + 5 * nsPerSec, t + 10 * nsPerSec,
            t + 15 * nsPerSec].getD 2 0 = 5 * nsPerSec := by
        simp only [List.getD_cons_succ, List.getD_cons_zero]
        ring
      simp only [hg]
      rw [if_neg (by norm_num [nsPerSec])]
    · rw [inferFrequency_none_eq]
      simp only [if_neg (show ¬ (4 ≤ [t].length) by simp),
        if_neg (show ¬ (2 ≤ [t].length) by simp)]
      rw [if_neg (by norm_num [nsPerSec])]

/-- Witness for C5 at the spec's concrete inputs. -/
theorem inferFrequency_claim_witness :
    ([0, 5000000000, 10000000000, 15000000000] : List Int).Pairwise (· ≤ ·)
    ∧ 0 < inferFrequency none [0, 5000000000, 10000000000, 15000000000]
    ∧ inferFrequency none
        [(0 : Int), 0 + 5 * nsPerSec, 0 + 10 * nsPerSec, 0 + 15 * nsPerSec]
        = 5 * nsPerSec := by
  refine ⟨by decide, ?_, ?_⟩
  · exact (inferFrequency_claim [0, 5000000000, 10000000000, 15000000000]
      none (fun k h => nomatch h) (by decide)).1
  · exact ((inferFrequency_claim [0, 5000000000, 10000000000, 15000000000]
      none (fun k h => nomatch h) (by decide)).2.2.2.2 0).1

theorem foldl_mergeAsofAppend (ls : List (List (Int × ℚ)))
    (init : List (Int × List (Option ℚ))) :
    ls.foldl mergeAsofAppend init
      = init.map (fun row => (row.1, row.2 ++ ls.map (fun s => asofLe s row.1))) := by
  induction ls generalizing init with
  | nil => simp
  | cons hd tl ih =>
    rw [List.foldl_cons, ih]
    unfold mergeAsofAppend
    rw [List.map_map]
    apply List.map_congr_left
    intro row _
    simp [List.append_assoc]

/-- C2: for every master-grid timestamp, the merged table row carries, for
each instrument in order, the value of that instrument's latest sample at or
before the grid timestamp (backward as-of join), and the sentinel `0.0` when
the instrument has no sample at or before it (`pd.merge_asof` with
`direction='backward'` followed by `fillna(0.0)`). -/
theorem alignMerge_cell (grid : List Int) (seriesList : List (List (Int × ℚ)))
    (hs : ∀ s ∈ seriesList, s.Pairwise (fun a b => a.1 < b.1)) :
    ∀ row ∈ alignMerge grid seriesList,
      row.1 ∈ grid
      ∧ row.2 = seriesList.map (fun s => fillna0 (asofLe s row.1))
      ∧ ∀ s ∈ seriesList,
          ((∃ r ∈ s, r.1 ≤ row.1) →
            ∃ r ∈ s, r.1 ≤ row.1
              ∧ (∀ r' ∈ s, r'.1 ≤ row.1 → r'.1 ≤ r.1)
              ∧ fillna0 (asofLe s row.1) = r.2)
          ∧ ((∀ r ∈ s, row.1 < r.1) → fillna0 (asofLe s row.1) = 0) := by
  intro row hrow
  unfold alignMerge at hrow
  rw [foldl_mergeAsofAppend, List.map_map, List.map_map] at hrow
  rcases List.mem_map.mp hrow with ⟨g, hg, hrow'⟩
  subst hrow'
  simp only [Function.comp]
  refine ⟨hg, by simp [List.map_map], ?_⟩
  intro s hsmem
  constructor
  · intro hex
    obtain ⟨q, hq⟩ := lastLe_isSome s g hex
    obtain ⟨hq1, hq2, hq3⟩ := lastLe_spec s g
      ((hs s hsmem).imp (fun h => le_of_lt h)) q hq
    exact ⟨q, hq1, hq2, hq3, by simp [asofLe, hq, fillna0]⟩
  · intro hnone
    have : lastLe s g = none := (lastLe_eq_none s g).mpr hnone
    simp [asofLe, this, fillna0]

/-- Witness for C2 on a concrete grid and a single one-sample series: at the
grid point after the sample the cell is the sample's value, before it the
sentinel `0.0`. -/
theorem alignMerge_cell_witness :
    (∀ s ∈ [[((1500000000 : Int), (9 : ℚ))]],
      s.Pairwise (fun a b => a.1 < b.1))
    ∧ ((2000000000 : Int), [(9 : ℚ)]).2
        = [[((1500000000 : Int), (9 : ℚ))]].map
            (fun s => fillna0 (asofLe s ((2000000000 : Int), [(9 : ℚ)]).1)) := by
  refine ⟨by decide, ?_⟩
  exact (alignMerge_cell [0, 2000000000] [[((1500000000 : Int), (9 : ℚ))]]
    (by decide) ((2000000000 : Int), [(9 : ℚ)]) (by decide)).2.1

theorem midnightNs_emod_nsPerSec (t : Int) :
    (midnightNs t) % nsPerSec = 0 := by
  unfold midnightNs
  refine Int.emod_eq_zero_of_dvd ?_
  exact Dvd.dvd.mul_right ⟨86400, by norm_num [nsPerDay, nsPerSec]⟩ _

theorem floorAnchored_eq_self {p t m : Int} (h : (t - m) % p = 0) :
    floorAnchored p t m = t := by
  unfold floorAnchored
  rw [h]
  ring

theorem upsampleGrid_example (t0 : Int) (ht : t0 % nsPerSec = 0) :
    upsampleGrid t0 (t0 + 2 * nsPerSec) nsPerSec
      = [t0, t0 + nsPerSec, t0 + 2 * nsPerSec] := by
  have hm : (midnightNs t0) % nsPerSec = 0 := midnightNs_emod_nsPerSec t0
  have h1 : (t0 - midnightNs t0) % nsPerSec = 0 := by
    rw [Int.sub_emod, ht, hm]
    decide
  have h2 : (t0 + 2 * nsPerSec - midnightNs t0) % nsPerSec = 0 := by
    have : t0 + 2 * nsPerSec - midnightNs t0
        = (t0 - midnightNs t0) + 2 * nsPerSec := by ring
    rw [this, Int.add_mul_emod_self, h1]
  unfold upsampleGrid
  dsimp only
  rw [floorAnchored_eq_self h1, floorAnchored_eq_self h2]
  have hdiv : (t0 + 2 * nsPerSec - t0) / nsPerSec = 2 := by
    have : t0 + 2 * nsPerSec - t0 = 2 * nsPerSec := by ring
    rw [this]
    decide
  rw [hdiv]
  show (List.range 3).map (fun (i : Nat) => t0 + nsPerSec * (i : Int))
      = [t0, t0 + nsPerSec, t0 + 2 * nsPerSec]
  have hr3 : List.range 3 = [0, 1, 2] := by decide
  rw [hr3]
  simp only [List.map_cons, List.map_nil, List.cons.injEq, and_true]
  refine ⟨by push_cast; ring, by push_cast; ring, by push_cast; ring⟩

theorem upsampleRows_example (t0 : Int) (ht : t0 % nsPerSec = 0) :
    upsampleRows [(t0, some 10), (t0 + 2 * nsPerSec, some 20)] nsPerSec
      = [(t0, some 10), (t0 + nsPerSec, some 10),
         (t0 + 2 * nsPerSec, some 20)] := by
  have hne : ¬ (t0 + 2 * nsPerSec ≤ t0) := by norm_num [nsPerSec]
  have hne2 : ¬ (t0 + 2 * nsPerSec ≤ t0 + nsPerSec) := by norm_num [nsPerSec]
  have hle1 : t0 ≤ t0 + nsPerSec := by norm_num [nsPerSec]
  have hle2 : t0 ≤ t0 + 2 * nsPerSec := by norm_num [nsPerSec]
  have hred : upsampleRows [(t0, some (10 : ℚ)),
        (t0 + 2 * nsPerSec, some 20)] nsPerSec
      = (upsampleGrid t0 (t0 + 2 * nsPerSec) nsPerSec).map
          (fun g => (g, asofRow [(t0, some 10),
            (t0 + 2 * nsPerSec, some 20)] g)) := rfl
  rw [hred, upsampleGrid_example t0 ht]
  simp only [List.map_cons, List.map_nil]
  have h1 : asofRow [(t0, some 10), (t0 + 2 * nsPerSec, some 20)] t0
      = some 10 := by
    simp [asofRow, lastLe, hne]
  have h2 : asofRow [(t0, some 10), (t0 + 2 * nsPerSec, some 20)]
      (t0 + nsPerSec) = some 10 := by
    simp [asofRow, lastLe, hne2, hle1]
  have h3 : asofRow [(t0, some 10), (t0 + 2 * nsPerSec, some 20)]
      (t0 + 2 * nsPerSec) = some 20 := by
    simp [asofRow, lastLe, hle2]
  rw [h1, h2, h3]

/-- C4: upsampling (`targetPeriod < period`) reindexes the series onto a grid
at the target period built from the series' own first and last timestamps;
each grid point carries the cell of the most recent original row at or before
it (carry-forward hold), and a grid point before the first row gets no value
(NaN at this stage — zero-filling happens only in the aligner).  In
particular samples `(t0, 10)` and `(t0+2s, 20)` at a native 2-second period
upsampled to 1 second yield values `10, 10, 20` at `t0, t0+1s, t0+2s`. -/
theorem resample_upsample_claim (rows : List (Int × Option ℚ)) (p : Int)
    (_hp : 0 < p) (hs : rows.Pairwise (fun a b => a.1 ≤ b.1)) :
    (∀ g val, (g, val) ∈ upsampleRows rows p →
      ((∃ r ∈ rows, r.1 ≤ g) →
        ∃ r ∈ rows, r.1 ≤ g ∧ (∀ q ∈ rows, q.1 ≤ g → q.1 ≤ r.1) ∧ val = r.2)
      ∧ ((∀ r ∈ rows, g < r.1) → val = none))
    ∧ (∀ f l, rows.head? = some f → rows.getLast? = some l →
        (upsampleRows rows p).map Prod.fst = upsampleGrid f.1 l.1 p)
    ∧ (∀ t0 : Int, t0 % nsPerSec = 0 →
        ((TsIdxData.mk "ex" "ex"
            [("ex", [(t0, some 10), (t0 + 2 * nsPerSec, some 20)])]
            (2 * nsPerSec)).resample (.valid nsPerSec) "").df
          = [("ex", [(t0, some 10), (t0 + nsPerSec, some 10),
                     (t0 + 2 * nsPerSec, some 20)])]) := by
  refine ⟨?_, ?_, ?_⟩
  · intro g val hmem
    have hval : val = asofRow rows g := by
      unfold upsampleRows at hmem
      cases hhead : rows.head? with
      | none => rw [hhead] at hmem; simp at hmem
      | some f =>
        cases hlast : rows.getLast? with
        | none => rw [hhead, hlast] at hmem; simp at hmem
        | some l =>
          rw [hhead, hlast] at hmem
          simp only [List.mem_map] at hmem
          rcases hmem with ⟨g', _, heq⟩
          have hg : g' = g := congrArg Prod.fst heq
          subst hg
          exact (congrArg Prod.snd heq).symm
    subst hval
    constructor
    · intro hex
      obtain ⟨q, hq⟩ := lastLe_isSome rows g hex
      obtain ⟨hq1, hq2, hq3⟩ := lastLe_spec rows g hs q hq
      refine ⟨q, hq1, hq2, hq3, ?_⟩
      simp [asofRow, hq]
    · intro hnone
      have hz : lastLe rows g = none := (lastLe_eq_none rows g).mpr hnone
      simp [asofRow, hz]
  · intro f l hf hl
    unfold upsampleRows
    rw [hf, hl]
    rw [List.map_map]
    exact List.map_id _
  · intro t0 ht
    unfold TsIdxData.resample
    rw [if_pos (by norm_num [nsPerSec] : nsPerSec < (2 : Int) * nsPerSec)]
    rw [if_neg (by norm_num [nsPerSec] : ¬ (nsPerSec ≤ (0 : Int)))]
    show [("ex", upsampleRows (TsIdxData.firstCol _) nsPerSec)] = _
    rw [show TsIdxData.firstCol (TsIdxData.mk "ex" "ex"
        [("ex", [(t0, some 10), (t0 + 2 * nsPerSec, some 20)])]
        (2 * nsPerSec)) = [(t0, some 10), (t0 + 2 * nsPerSec, some 20)]
      from rfl]
    rw [upsampleRows_example t0 ht]

/-- Witness for C4 at `t0 = 0`. -/
theorem resample_upsample_claim_witness :
    (0 : Int) < nsPerSec
    ∧ ([((0 : Int), some (10 : ℚ)),
        (2 * nsPerSec, some 20)]).Pairwise (fun a b => a.1 ≤ b.1)
    ∧ ((TsIdxData.mk "ex" "ex"
          [("ex", [(0, some 10), (0 + 2 * nsPerSec, some 20)])]
          (2 * nsPerSec)).resample (.valid nsPerSec) "").df
        = [("ex", [(0, some 10), (0 + nsPerSec, some 10),
                   (0 + 2 * nsPerSec, some 20)])] := by
  refine ⟨by decide, by decide, ?_⟩
  exact (resample_upsample_claim
    [((0 : Int), some (10 : ℚ)), (2 * nsPerSec, some 20)] nsPerSec
    (by decide) (by decide)).2.2 0 (by decide)

theorem binEdgeFirstRight_lt (f m p : Int) (hp : 0 < p) :
    binEdgeFirstRight f m p < f := by
  unfold binEdgeFirstRight
  dsimp only
  have hnn := Int.emod_nonneg (f - m) (by omega : p ≠ 0)
  by_cases h : 0 < (f - m) % p
  · rw [if_pos h]; omega
  · rw [if_neg h]; omega

theorem le_binEdgeLastRight (l m p : Int) (hp : 0 < p) :
    l ≤ binEdgeLastRight l m p := by
  unfold binEdgeLastRight
  dsimp only
  have hlt := Int.emod_lt_of_pos (l - m) hp
  by_cases h : 0 < (l - m) % p
  · rw [if_pos h]; omega
  · rw [if_neg h]

theorem dvd_binEdgeFirstRight_sub (f m p : Int) (hp : 0 < p) :
    p ∣ (binEdgeFirstRight f m p - m) := by
  unfold binEdgeFirstRight
  dsimp only
  have hdm := Int.ediv_add_emod (f - m) p
  have hnn := Int.emod_nonneg (f - m) (by omega : p ≠ 0)
  by_cases h : 0 < (f - m) % p
  · rw [if_pos h]
    exact ⟨(f - m) / p, by omega⟩
  · rw [if_neg h]
    refine ⟨(f - m) / p - 1, ?_⟩
    rw [mul_sub, mul_one]
    omega

theorem dvd_binEdgeLastRight_sub (l m p : Int) (hp : 0 < p) :
    p ∣ (binEdgeLastRight l m p - m) := by
  unfold binEdgeLastRight
  dsimp only
  have hdm := Int.ediv_add_emod (l - m) p
  have hnn := Int.emod_nonneg (l - m) (by omega : p ≠ 0)
  by_cases h : 0 < (l - m) % p
  · rw [if_pos h]
    refine ⟨(l - m) / p + 1, ?_⟩
    rw [mul_add, mul_one]
    omega
  · rw [if_neg h]
    exact ⟨(l - m) / p, by omega⟩

theorem labelsRight_eq (f l p : Int) :
    labelsRight f l p
      = (List.range (((binEdgeLastRight l (midnightNs f) p
            - binEdgeFirstRight f (midnightNs f) p) / p)).toNat).map
          (fun (i : Nat) => binEdgeFirstRight f (midnightNs f) p
            + p * ((i : Int) + 1)) := rfl

theorem labelsRight_mem (f l p : Int) (hp : 0 < p) (hfl : f ≤ l) (e : Int) :
    e ∈ labelsRight f l p
      ↔ ∃ k : Int, 0 ≤ k
          ∧ e = binEdgeFirstRight f (midnightNs f) p + p * (k + 1)
          ∧ e ≤ binEdgeLastRight l (midnightNs f) p := by
  rw [labelsRight_eq]
  set m := midnightNs f with hm
  set fres := binEdgeFirstRight f m p with hfres
  set lres := binEdgeLastRight l m p with hlres
  have hdvd : p ∣ (lres - fres) := by
    have h1 := dvd_binEdgeFirstRight_sub f m p hp
    have h2 := dvd_binEdgeLastRight_sub l m p hp
    rw [← hfres] at h1
    rw [← hlres] at h2
    have hrw : lres - fres = (lres - m) - (fres - m) := by ring
    rw [hrw]
    exact dvd_sub h2 h1
  obtain ⟨N, hN⟩ := hdvd
  have hlt1 := binEdgeFirstRight_lt f m p hp
  rw [← hfres] at hlt1
  have hlt2 := le_binEdgeLastRight l m p hp
  rw [← hlres] at hlt2
  have hfl2 : fres < lres := lt_of_lt_of_le hlt1 (le_trans hfl hlt2)
  have hNpos : 0 < N := by
    by_contra hc
    push_neg at hc
    have : p * N ≤ 0 := mul_nonpos_of_nonneg_of_nonpos (le_of_lt hp) hc
    omega
  have hdiv : (lres - fres) / p = N := by
    rw [hN]
    exact Int.mul_ediv_cancel_left N (by omega)
  rw [List.mem_map]
  constructor
  · rintro ⟨i, hi, rfl⟩
    rw [List.mem_range] at hi
    refine ⟨(i : Int), Int.natCast_nonneg i, rfl, ?_⟩
    have hiN : (i : Int) + 1 ≤ N := by
      rw [hdiv] at hi
      omega
    have hmul := mul_le_mul_of_nonneg_left hiN (le_of_lt hp)
    omega
  · rintro ⟨k, hk0, hke, hkle⟩
    have hkN : k + 1 ≤ N := by
      have hmul : p * (k + 1) ≤ p * N := by omega
      exact le_of_mul_le_mul_left hmul hp
    refine ⟨k.toNat, ?_, ?_⟩
    · rw [List.mem_range, hdiv]
      omega
    · rw [hke]
      congr 2
      rw [Int.toNat_of_nonneg hk0]

theorem labelsRight_partition (f l p : Int) (hp : 0 < p) (hfl : f ≤ l)
    (t : Int) (hft : f ≤ t) (htl : t ≤ l) :
    ∃! e, e ∈ labelsRight f l p ∧ e - p < t ∧ t ≤ e := by
  have hlt1 := binEdgeFirstRight_lt f (midnightNs f) p hp
  have hlt2 := le_binEdgeLastRight l (midnightNs f) p hp
  set m := midnightNs f with hm
  set fres := binEdgeFirstRight f m p with hfres
  set lres := binEdgeLastRight l m p with hlres
  have hdvd : p ∣ (lres - fres) := by
    have h1 := dvd_binEdgeFirstRight_sub f m p hp
    have h2 := dvd_binEdgeLastRight_sub l m p hp
    rw [← hfres] at h1
    rw [← hlres] at h2
    have hrw : lres - fres = (lres - m) - (fres - m) := by ring
    rw [hrw]
    exact dvd_sub h2 h1
  obtain ⟨N, hN⟩ := hdvd
  have hdm := Int.ediv_add_emod (t - fres - 1) p
  have hnn := Int.emod_nonneg (t - fres - 1) (by omega : p ≠ 0)
  have hub := Int.emod_lt_of_pos (t - fres - 1) hp
  set k := (t - fres - 1) / p with hk
  have hk0 : 0 ≤ k := Int.ediv_nonneg (by omega) (le_of_lt hp)
  have hkN : k + 1 ≤ N := by
    have h1 : p * k < p * N := by omega
    have h2 : k < N := lt_of_mul_lt_mul_left h1 (le_of_lt hp)
    omega
  have hsand1 : fres + p * k < t := by omega
  have hsand2 : t ≤ fres + p * (k + 1) := by
    have : p * (k + 1) = p * k + p := by ring
    omega
  have hle : fres + p * (k + 1) ≤ lres := by
    have h1 : p * (k + 1) ≤ p * N := mul_le_mul_of_nonneg_left hkN
      (le_of_lt hp)
    omega
  refine ⟨fres + p * (k + 1), ⟨?_, ?_, hsand2⟩, ?_⟩
  · rw [labelsRight_mem f l p hp hfl]
    exact ⟨k, hk0, rfl, hle⟩
  · have : p * (k + 1) = p * k + p := by ring
    omega
  · rintro e ⟨hmem, hbin1, hbin2⟩
    rw [labelsRight_mem f l p hp hfl] at hmem
    rcases hmem with ⟨j, hj0, hje, hjle⟩
    rw [← hm, ← hfres] at hje
    rw [← hm, ← hlres] at hjle
    subst hje
    have hph : p * (j + 1) = p * j + p := by ring
    have h1 : p * j < p * (k + 1) := by omega
    have h2 : p * k < p * (j + 1) := by omega
    have hj_lt : j < k + 1 := lt_of_mul_lt_mul_left h1 (le_of_lt hp)
    have hk_lt : k < j + 1 := lt_of_mul_lt_mul_left h2 (le_of_lt hp)
    have : j = k := by omega
    rw [this]

theorem pairwise_head {α : Type} {R : α → α → Prop} :
    ∀ (l : List α), l.Pairwise R → ∀ a, l.head? = some a →
      ∀ x ∈ l, x = a ∨ R a x := by
  intro l hp a ha x hx
  cases l with
  | nil => cases ha
  | cons b rest =>
    have hb : b = a := by simpa using ha
    subst hb
    rcases List.mem_cons.mp hx with h | h
    · left; exact h
    · right; exact (List.pairwise_cons.mp hp).1 x h

/-- C3: downsampling (`targetPeriod > period`) partitions the series' index
span into right-closed, right-labelled intervals `(e - p, e]` — every sample
falls into exactly one labelled interval — and each selected statistic column
carries, at each label, that aggregate of all values in the label's interval
(`Value` = last, `Min`/`Max`/`Mean` = the aggregate over the interval).  In
particular values `[3, 7, 2]` at a 1-second period inside one 3-second
interval give a Max column of 7 under `stats="x"` and a Mean column of 4.0
under `stats="m"`. -/
theorem resample_downsample_claim (rows : List (Int × Option ℚ)) (p : Int)
    (hp : 0 < p) (hs : rows.Pairwise (fun a b => a.1 ≤ b.1))
    (f l : Int × Option ℚ) (hf : rows.head? = some f)
    (hl : rows.getLast? = some l) :
    (∀ r ∈ rows, ∃! e, e ∈ labelsRight f.1 l.1 p ∧ e - p < r.1 ∧ r.1 ≤ e)
    ∧ (∀ agg : List ℚ → Option ℚ, downsampleCol agg rows p
        = (labelsRight f.1 l.1 p).map (fun e => (e, agg (binValues rows e p))))
    ∧ ((exDown.resample (.valid (3 * nsPerSec)) "x").df
        = [("max_ex", [(3 * nsPerSec, some 7)])])
    ∧ ((exDown.resample (.valid (3 * nsPerSec)) "m").df
        = [("mean_ex", [(3 * nsPerSec, some 4)])]) := by
  have hfm : f ∈ rows := by
    cases rows with
    | nil => cases hf
    | cons b rest =>
      have hb : b = f := by simpa using hf
      rw [← hb]
      exact List.mem_cons_self b rest
  have hfl : f.1 ≤ l.1 := by
    rcases pairwise_getLast rows hs l hl f hfm with he | hle
    · rw [he]
    · exact hle
  refine ⟨?_, ?_, ?_, ?_⟩
  · intro r hr
    have h1 : f.1 ≤ r.1 := by
      rcases pairwise_head rows hs f hf r hr with he | hle
      · rw [he]
      · exact hle
    have h2 : r.1 ≤ l.1 := by
      rcases pairwise_getLast rows hs l hl r hr with he | hle
      · rw [he]
      · exact hle
    exact labelsRight_partition f.1 l.1 p hp hfl r.1 h1 h2
  · intro agg
    unfold downsampleCol
    rw [hf, hl]
  · decide
  · have h1 : (exDown.resample (.valid (3 * nsPerSec)) "m").df
        = [("mean_ex", [(3 * nsPerSec, aggMean [3, 7, 2])])] := rfl
    have h2 : aggMean [(3 : ℚ), 7, 2] = some 4 := by
      show some (([(3 : ℚ), 7, 2].sum) / ([(3 : ℚ), 7, 2].length : ℚ))
        = some 4
      norm_num
    rw [h1, h2]

/-- Witness for C3 at the spec's concrete 1-second data downsampled to 3
seconds. -/
theorem resample_downsample_claim_witness :
    ((0 : Int) < 3 * nsPerSec)
    ∧ ([(nsPerSec, some (3 : ℚ)), (2 * nsPerSec, some 7),
        (3 * nsPerSec, some 2)]).Pairwise (fun a b => a.1 ≤ b.1)
    ∧ (exDown.resample (.valid (3 * nsPerSec)) "x").df
        = [("max_ex", [(3 * nsPerSec, some 7)])] := by
  refine ⟨by decide, by decide, ?_⟩
  exact (resample_downsample_claim
    [(nsPerSec, some 3), (2 * nsPerSec, some 7), (3 * nsPerSec, some 2)]
    (3 * nsPerSec) (by decide) (by decide)
    (nsPerSec, some 3) (3 * nsPerSec, some 2) rfl rfl).2.2.1

theorem roundMsNs_emod (t : Int) : roundMsNs t % nsPerMs = 0 := by
  unfold roundMsNs
  dsimp only
  split
  · exact Int.mul_emod_right _ _
  · split
    · exact Int.mul_emod_right _ _
    · split
      · exact Int.mul_emod_right _ _
      · exact Int.mul_emod_right _ _

theorem tsIdxInitSamples_mem_none (rows : List (Int × ℚ))
    (startQ endQ : Option Int) (t : Int) (v : ℚ) :
    (t, v) ∈ tsIdxInitSamples rows none startQ endQ ↔
      ((t, v) ∈ rows.map (fun r => (roundMsNs r.1, r.2))
       ∧ (∀ s, startQ = some s → s ≤ t)
       ∧ (∀ e, endQ = some e → t ≤ e)) := by
  cases startQ <;> cases endQ <;>
    simp [tsIdxInitSamples, clipWindow, List.mem_filter, mem_sortByTs,
      and_assoc]

/-- C9: clipping keeps exactly the (millisecond-rounded) samples inside the
inclusive window `[windowStart, windowEnd]`.  When the parsed end query `D`
has no time-of-day (time is exactly midnight) the source sets the bound to
`D` 23:59:59.999999 (first conjunct, lines 214-216); since every stored
timestamp has been rounded to a whole millisecond, the kept samples are
exactly those with `timestamp ≤ D` 23:59:59.999 as the claim states (second
conjunct), so the entire end day is captured.  An end query that does carry a
time-of-day is used unchanged as an inclusive bound (third conjunct); a
window start is always used as parsed (midnight for a bare date comes from
the external `dateutil` parser). -/
theorem clip_window_claim (rows : List (Int × ℚ)) (startQ : Option Int)
    (D : Int) (hD : D % nsPerDay = 0) :
    (endOfDayAdjust D = D + 86399999999000)
    ∧ (∀ t v, (t, v) ∈ tsIdxInitSamples rows none startQ
          (some (endOfDayAdjust D)) ↔
        ((t, v) ∈ rows.map (fun r => (roundMsNs r.1, r.2))
         ∧ (∀ s, startQ = some s → s ≤ t)
         ∧ t ≤ D + 86399999000000))
    ∧ (∀ e : Int, e % nsPerDay ≠ 0 →
        ∀ t v, (t, v) ∈ tsIdxInitSamples rows none startQ
            (some (endOfDayAdjust e)) ↔
          ((t, v) ∈ rows.map (fun r => (roundMsNs r.1, r.2))
           ∧ (∀ s, startQ = some s → s ≤ t)
           ∧ t ≤ e)) := by
  have hadjD : endOfDayAdjust D = D + 86399999999000 := by
    unfold endOfDayAdjust
    rw [if_pos hD]
  refine ⟨hadjD, ?_, ?_⟩
  · intro t v
    rw [tsIdxInitSamples_mem_none]
    constructor
    · rintro ⟨hmem, hstart, hend⟩
      refine ⟨hmem, hstart, ?_⟩
      have h1 : t ≤ D + 86399999999000 := by
        have h := hend (endOfDayAdjust D) rfl
        rwa [hadjD] at h
      have ht6 : t % nsPerMs = 0 := by
        rcases List.mem_map.mp hmem with ⟨r, _, heq⟩
        have hrt : t = roundMsNs r.1 := (congrArg Prod.fst heq).symm
        rw [hrt]
        exact roundMsNs_emod r.1
      unfold nsPerMs at ht6
      unfold nsPerDay at hD
      omega
    · rintro ⟨hmem, hstart, hend999⟩
      refine ⟨hmem, hstart, ?_⟩
      intro e he
      obtain rfl : endOfDayAdjust D = e := Option.some.inj he
      rw [hadjD]
      omega
  · intro e hne t v
    have hadj : endOfDayAdjust e = e := by
      unfold endOfDayAdjust
      rw [if_neg hne]
    rw [hadj, tsIdxInitSamples_mem_none]
    constructor
    · rintro ⟨hmem, hstart, hend⟩
      exact ⟨hmem, hstart, hend e rfl⟩
    · rintro ⟨hmem, hstart, hend⟩
      exact ⟨hmem, hstart, fun e' he' => (Option.some.inj he') ▸ hend⟩

/-- Witness for C9 at day 0: the source's end-of-day bound is
23:59:59.999999, and a sample rounded to the last millisecond of the day is
kept. -/
theorem clip_window_claim_witness :
    ((0 : Int) % nsPerDay = 0)
    ∧ endOfDayAdjust 0 = 0 + 86399999999000
    ∧ (((86399999000000 : Int), (5 : ℚ))
        ∈ tsIdxInitSamples [(86399999000000, 5)] none none
            (some (endOfDayAdjust 0)) ↔
        (((86399999000000 : Int), (5 : ℚ))
          ∈ ([((86399999000000 : Int), (5 : ℚ))]).map
              (fun r => (roundMsNs r.1, r.2))
         ∧ (∀ s, (none : Option Int) = some s → s ≤ 86399999000000)
         ∧ (86399999000000 : Int) ≤ 0 + 86399999000000)) := by
  refine ⟨by decide, ?_, ?_⟩
  · exact (clip_window_claim [(86399999000000, 5)] none 0 (by decide)).1
  · exact (clip_window_claim [(86399999000000, 5)] none 0
      (by decide)).2.1 86399999000000 5
